import Mathlib

set_option maxHeartbeats 1000000

/-!
Verification of the transcript-checking core of
`src/substratevm/mx.substratevm/testhello.py` (class `Checker`).

The file embeds, as executable Lean definitions:
  * the fragment of Python's `re` regular-expression engine that the
    script uses (literal characters, character ranges such as `[0-9]`,
    the dot, greedy `*` and `+`, and capturing groups), with Python's
    leftmost / greedy backtracking priority and `re.match`'s anchoring
    at the start of the string;
  * `str.splitlines` for newline-terminated text (the only separator
    occurring in the checked gdb transcripts);
  * `Checker.__init__` (normalisation of a scalar pattern into a
    one-element list) and `Checker.check`, whose `print` calls and
    `sys.exit(1)` are reified as a list of structured print events
    together with an exit-or-return result.
-/

/-- Character atoms of the regular expressions used by testhello.py:
a literal character, a character range such as `[0-9]`, or the dot
(which in Python matches any character other than a newline). -/
inductive Atom where
  | lit (c : Char)
  | range (lo hi : Char)
  | any
deriving DecidableEq

/-- Whether a character belongs to an atom, as in Python's `re`. -/
def Atom.test : Atom → Char → Bool
  | .lit c, d => c == d
  | .range lo hi, d => decide (lo ≤ d) && decide (d ≤ hi)
  | .any, d => d != '\n'

/-- Abstract syntax of the regular-expression fragment used by the
script: empty pattern, single-character atom, concatenation, greedy
star, and numbered capturing group.  `+` is encoded as `r · r*`, the
way `re` treats it semantically. -/
inductive Regex where
  | eps
  | ch (a : Atom)
  | cat (r₁ r₂ : Regex)
  | star (r : Regex)
  | group (n : Nat) (r : Regex)
deriving DecidableEq

/-- Captures accumulated during a match: pairs of a group number and
the text consumed by that group, in order of group completion. -/
abbrev Caps := List (Nat × String)

/-- Greedy iteration of a matcher `f`, in Python's backtracking
priority: longer iterations are tried before shorter ones, and an
iteration of the body must consume at least one character (repeating an
empty match cannot change the result, and `re` never loops on one).
The fuel bounds the number of iterations; since every iteration
consumes a character, `s.length + 1` is always enough. -/
def starMatch (f : List Char → Caps → List (List Char × Caps)) :
    Nat → List Char → Caps → List (List Char × Caps)
  | 0, s, caps => [(s, caps)]
  | fuel + 1, s, caps =>
      (((f s caps).filter (fun x => decide (x.1.length < s.length))).flatMap
        (fun x => starMatch f fuel x.1 x.2)) ++ [(s, caps)]

/-- Backtracking matcher for `Regex`, modelled from the documented
semantics of Python's `re` module (the repository code only calls it;
the library itself is not part of the repository).  `rmatch r s caps`
returns every way `r` can match a prefix of `s`, each as the remaining
suffix paired with the accumulated captures, in `re`'s backtracking
priority order, so the head of the list is the match `re.match`
returns. -/
def rmatch : Regex → List Char → Caps → List (List Char × Caps)
  | .eps, s, caps => [(s, caps)]
  | .ch _, [], _ => []
  | .ch a, c :: s, caps => if a.test c then [(s, caps)] else []
  | .cat r₁ r₂, s, caps => (rmatch r₁ s caps).flatMap (fun x => rmatch r₂ x.1 x.2)
  | .star r, s, caps => starMatch (fun s' caps' => rmatch r s' caps') (s.length + 1) s caps
  | .group n r, s, caps =>
      (rmatch r s caps).map
        (fun x => (x.1, x.2 ++ [(n, ((s.take (s.length - x.1.length)).asString))]))

/-- A Python match object, reduced to what the script consumes: the
matched text (group 0) and the captured groups. -/
structure PyMatch where
  matched : String
  caps : Caps
deriving DecidableEq

/-- Model of `rexp.match(line)`: an anchored search at the start of the
line, returning the first match in backtracking priority order, or
`none` when no prefix of the line matches. -/
def pmatch (r : Regex) (line : String) : Option PyMatch :=
  match rmatch r line.data [] with
  | [] => none
  | x :: _ => some ⟨(line.data.take (line.data.length - x.1.length)).asString, x.2⟩

/-- Model of `match.group(n)`: group 0 is the whole matched text, and a
positive group number returns the text of that group's last completed
capture. -/
def PyMatch.group (m : PyMatch) (n : Nat) : Option String :=
  if n = 0 then some m.matched
  else (m.caps.reverse.find? (fun p => p.1 == n)).map (fun p => p.2)

/-- Model of Python's `int(...)` on the decimal strings the script
extracts from captured groups. -/
def digitsToNat : List Char → Nat → Option Nat
  | [], acc => some acc
  | c :: cs, acc =>
      if '0' ≤ c ∧ c ≤ '9' then digitsToNat cs (acc * 10 + (c.toNat - 48))
      else none

/-- Model of Python's `int(...)` applied to a string of decimal digits. -/
def pyInt (s : String) : Option Nat :=
  match s.data with
  | [] => none
  | c :: cs => digitsToNat (c :: cs) 0

/-- Helper for `splitLines`: accumulates the current line in reverse. -/
def splitLinesAux : List Char → List Char → List String
  | [], acc => if acc.isEmpty then [] else [acc.reverse.asString]
  | c :: cs, acc =>
      if c = '\n' then acc.reverse.asString :: splitLinesAux cs []
      else splitLinesAux cs (c :: acc)

/-- Model of Python's `str.splitlines()` for newline-terminated text:
`'\n'` terminates a line, a trailing chunk without a terminator is
still a line, and a trailing terminator does not create an empty last
line. -/
def splitLines (s : String) : List String := splitLinesAux s.data []

/-- The checker of testhello.py: a name used in diagnostics and the
list of compiled per-line patterns. -/
structure Checker where
  name : String
  rexps : List Regex
deriving DecidableEq

/-- The `regexps` argument of `Checker.__init__`, which accepts either
a single pattern or a list of patterns. -/
inductive RegexArg where
  | one (r : Regex)
  | many (rs : List Regex)

/-- Model of `Checker.__init__`: a scalar pattern is wrapped into a
one-element list, a list is taken as is (compilation of each pattern is
the identity on the abstract syntax). -/
def Checker.init (name : String) (regexps : RegexArg) : Checker :=
  match regexps with
  | .one r => ⟨name, [r]⟩
  | .many rs => ⟨name, rs⟩

/-- One `print` call performed by `Checker.check`, in structured form:
the strict-mismatch diagnostic line, the insufficient-matches
diagnostic line, the `print(self)` report (name and full pattern
list), and the echo of the full transcript text. -/
inductive PrintEvent where
  | matchFailed (name : String) (patIdx lineIdx : Nat) (line : String)
  | insufficientLines (name : String) (numMatches numRexps : Nat)
  | checkerReport (name : String) (rexps : List Regex)
  | textEcho (text : String)
deriving DecidableEq

/-- Result of `Checker.check`: either `sys.exit(code)` or a normal
return of the collected matches. -/
inductive CheckResult where
  | exit (code : Nat)
  | ok (ms : List PyMatch)
deriving DecidableEq

/-- Everything observable about one `Checker.check` call: the `print`
calls it makes, in order, and how it ends. -/
structure CheckOutput where
  events : List PrintEvent
  result : CheckResult
deriving DecidableEq

/-- Result of the inner `while` loop of `Checker.check` for one
pattern: a match was found (with the remaining lines and the line
cursor just past the matched line), the lines ran out, or — in strict
mode — the scan stopped at a non-matching line. -/
inductive ScanRes where
  | found (m : PyMatch) (rest : List String) (nextIdx : Nat)
  | exhausted (nextIdx : Nat)
  | failNow (lineIdx : Nat) (line : String)
deriving DecidableEq

/-- The inner `while line_idx < num_lines and match is None` loop of
`Checker.check` (testhello.py lines 81-92), for the current pattern:
try `rexp.match` on each line from the cursor on; on a match stop with
the cursor advanced past that line; on a non-match either skip the
line (`skip_fails`) or stop for the strict diagnostic; stop when the
lines run out.  The remaining lines are kept as a list suffix and the
numeric cursor `line_idx` is carried alongside. -/
def scanFrom (rexp : Regex) (skip_fails : Bool) : List String → Nat → ScanRes
  | [], lineIdx => .exhausted lineIdx
  | line :: rest, lineIdx =>
      match pmatch rexp line with
      | some m => .found m rest (lineIdx + 1)
      | none =>
          if skip_fails then scanFrom rexp skip_fails rest (lineIdx + 1)
          else .failNow lineIdx line

/-- Result of the outer `for` loop of `Checker.check`: the collected
matches when every pattern's scan ran to completion, or the data of the
strict-mode failure diagnostic. -/
inductive LoopRes where
  | done (ms : List PyMatch)
  | strictFail (patIdx lineIdx : Nat) (line : String)
deriving DecidableEq

/-- The outer `for i in range(0, num_rexps)` loop of `Checker.check`
(testhello.py lines 78-92): scan for each pattern in turn, appending
the found match; once the lines are exhausted the remaining iterations
scan an empty suffix and append nothing, exactly as the Python loop
does when `line_idx` has reached `num_lines`. -/
def checkLoop (skip_fails : Bool) :
    List Regex → List String → Nat → Nat → List PyMatch → LoopRes
  | [], _, _, _, ms => .done ms
  | rexp :: rexps, lines, patIdx, lineIdx, ms =>
      match scanFrom rexp skip_fails lines lineIdx with
      | .found m rest nextIdx =>
          checkLoop skip_fails rexps rest (patIdx + 1) nextIdx (ms ++ [m])
      | .exhausted nextIdx =>
          checkLoop skip_fails rexps [] (patIdx + 1) nextIdx ms
      | .failNow i line => .strictFail patIdx i line

/-- Model of `Checker.check` (testhello.py lines 71-99).  The text is
split into lines; the loops above consume patterns and lines.  A
strict-mode mismatch prints the failure line, the checker itself and
the text, then exits with status 1; if fewer matches than patterns were
collected, the insufficient-matches line, the checker and the text are
printed before exiting with status 1; otherwise the text is printed and
the matches are returned. -/
def Checker.check (c : Checker) (text : String) (skip_fails : Bool := true) : CheckOutput :=
  let lines := splitLines text
  let rexps := c.rexps
  let num_rexps := rexps.length
  match checkLoop skip_fails rexps lines 0 0 [] with
  | .strictFail i lineIdx line =>
      ⟨[.matchFailed c.name i lineIdx line, .checkerReport c.name c.rexps, .textEcho text],
       .exit 1⟩
  | .done ms =>
      if ms.length < num_rexps then
        ⟨[.insufficientLines c.name ms.length num_rexps,
          .checkerReport c.name c.rexps, .textEcho text],
         .exit 1⟩
      else
        ⟨[.textEcho text], .ok ms⟩

/-- Declarative acceptance for `Regex`, the specification-side notion
of "the regular expression matches this string (exactly)". -/
inductive Accepts : Regex → List Char → Prop
  | eps : Accepts .eps []
  | ch {a : Atom} {c : Char} : a.test c = true → Accepts (.ch a) [c]
  | cat {r₁ r₂ : Regex} {s₁ s₂ : List Char} :
      Accepts r₁ s₁ → Accepts r₂ s₂ → Accepts (.cat r₁ r₂) (s₁ ++ s₂)
  | star_nil {r : Regex} : Accepts (.star r) []
  | star_cons {r : Regex} {s₁ s₂ : List Char} :
      Accepts r s₁ → Accepts (.star r) s₂ → Accepts (.star r) (s₁ ++ s₂)
  | group {n : Nat} {r : Regex} {s : List Char} :
      Accepts r s → Accepts (.group n r) s

/-- An in-order matching of a pattern list against a subsequence of a
line list: one match per pattern, patterns in order, every matched line
strictly after the previous pattern's matched line.  `MatchSeq rs ls
ms` is the specification-side success notion of `Checker.check`. -/
inductive MatchSeq : List Regex → List String → List PyMatch → Prop
  | nil {ls : List String} : MatchSeq [] ls []
  | match_line {r : Regex} {rs : List Regex} {l : String} {ls : List String}
      {m : PyMatch} {ms : List PyMatch} :
      pmatch r l = some m → MatchSeq rs ls ms → MatchSeq (r :: rs) (l :: ls) (m :: ms)
  | skip_line {r : Regex} {rs : List Regex} {l : String} {ls : List String}
      {ms : List PyMatch} :
      MatchSeq (r :: rs) ls ms → MatchSeq (r :: rs) (l :: ls) ms

/-- The `[0-9]+` fragment of testhello.py (line 129), `digits_pattern`. -/
def digits_pattern : Regex := .cat (.ch (.range '0' '9')) (.star (.ch (.range '0' '9')))

/-- The `.*` fragment of testhello.py (line 133), `wildcard_pattern`. -/
def wildcard_pattern : Regex := .star (.ch .any)

/-- A sequence of literal characters, one `Regex.ch` per character. -/
def rstr (s : String) : Regex :=
  s.data.foldr (fun c r => .cat (.ch (.lit c)) r) .eps

/-- The show-version pattern of testhello.py line 138,
`r"GNU gdb %s (%s)\.(%s)%s" % (wildcard_pattern, digits_pattern,
digits_pattern, wildcard_pattern)`, i.e.
`GNU gdb .* ([0-9]+)\.([0-9]+).*` with two capturing groups. -/
def show_version_rexp : Regex :=
  .cat (rstr ("GNU gdb "))
    (.cat wildcard_pattern
      (.cat (rstr (" "))
        (.cat (.group 1 digits_pattern)
          (.cat (rstr ("."))
            (.cat (.group 2 digits_pattern) wildcard_pattern)))))

/-- Whether a print-event list contains the strict-mismatch diagnostic,
the only emitted event that carries the index and content of the line
where matching stopped. -/
def hasLineDiag (evs : List PrintEvent) : Bool :=
  evs.any (fun e =>
    match e with
    | .matchFailed _ _ _ _ => true
    | _ => false)

/-- A matching of a pattern list yields exactly one match per pattern. -/
theorem MatchSeq.length_eq {rs : List Regex} {ls : List String} {ms : List PyMatch}
    (h : MatchSeq rs ls ms) : ms.length = rs.length := by
  induction h with
  | nil => rfl
  | match_line _ _ ih => simp [List.length_cons, ih]
  | skip_line _ ih => exact ih

/-- Prepending a line preserves matchability. -/
theorem MatchSeq.lines_cons {rs : List Regex} {ls : List String} {ms : List PyMatch}
    (l : String) (h : MatchSeq rs ls ms) : MatchSeq rs (l :: ls) ms := by
  cases rs with
  | nil => cases h; exact MatchSeq.nil
  | cons r rs => exact MatchSeq.skip_line h

/-- Dropping the first pattern preserves matchability of the rest. -/
theorem MatchSeq.tail_exists {r : Regex} {rs : List Regex} :
    ∀ {ls : List String} {ms : List PyMatch},
      MatchSeq (r :: rs) ls ms → ∃ ms', MatchSeq rs ls ms' := by
  intro ls
  induction ls with
  | nil => intro ms h; cases h
  | cons l ls ih =>
    intro ms h
    cases h with
    | match_line hm hrest => exact ⟨_, MatchSeq.lines_cons l hrest⟩
    | skip_line hrest =>
      obtain ⟨ms', hms'⟩ := ih hrest
      exact ⟨ms', MatchSeq.lines_cons l hms'⟩

/-- A successful inner scan composes with a matching of the remaining
patterns on the remaining lines into a matching of the whole list. -/
theorem MatchSeq.of_scan_found {r : Regex} {sf : Bool} :
    ∀ {lines : List String} {idx : Nat} {m : PyMatch} {rest : List String}
      {nextIdx : Nat} {rs : List Regex} {ms : List PyMatch},
      scanFrom r sf lines idx = .found m rest nextIdx →
      MatchSeq rs rest ms → MatchSeq (r :: rs) lines (m :: ms) := by
  intro lines
  induction lines with
  | nil => intro idx m rest nextIdx rs ms h _; simp [scanFrom] at h
  | cons l ls ih =>
    intro idx m rest nextIdx rs ms h hms
    rw [scanFrom] at h
    cases hp : pmatch r l with
    | some m' =>
      rw [hp] at h
      cases h
      exact MatchSeq.match_line hp hms
    | none =>
      rw [hp] at h
      cases sf with
      | true => exact MatchSeq.skip_line (ih h hms)
      | false => simp at h

/-- In skip mode, if the pattern list can be matched in order against
the lines, then the inner scan for the first pattern finds a match, and
the remaining patterns can still be matched against the remaining
lines. -/
theorem scan_found_of_MatchSeq {r : Regex} {rs : List Regex} :
    ∀ {lines : List String} {ms : List PyMatch},
      MatchSeq (r :: rs) lines ms → ∀ idx : Nat,
      ∃ m rest nextIdx ms',
        scanFrom r true lines idx = .found m rest nextIdx ∧ MatchSeq rs rest ms' := by
  intro lines
  induction lines with
  | nil => intro ms h; cases h
  | cons l ls ih =>
    intro ms h idx
    cases h with
    | match_line hm hrest =>
      exact ⟨_, ls, idx + 1, _, by rw [scanFrom, hm], hrest⟩
    | skip_line hrest =>
      cases hp : pmatch r l with
      | none =>
        obtain ⟨m, rest, nextIdx, ms', hscan, hms'⟩ := ih hrest (idx + 1)
        exact ⟨m, rest, nextIdx, ms', by rw [scanFrom, hp]; simpa using hscan, hms'⟩
      | some m0 =>
        obtain ⟨ms', hms'⟩ := MatchSeq.tail_exists hrest
        exact ⟨m0, ls, idx + 1, ms', by rw [scanFrom, hp], hms'⟩

/-- With no lines left, the outer loop appends nothing and finishes
with the matches collected so far. -/
theorem checkLoop_nil_lines (sf : Bool) :
    ∀ (rs : List Regex) (p i : Nat) (acc : List PyMatch),
      checkLoop sf rs [] p i acc = .done acc := by
  intro rs
  induction rs with
  | nil => intro p i acc; rfl
  | cons r rs ih => intro p i acc; rw [checkLoop, scanFrom]; exact ih _ _ _

/-- Completeness of the skip-mode loop: a pattern list that can be
matched in order against the lines is fully consumed, and the loop
returns, appended to the accumulator, a match list that is itself an
in-order matching. -/
theorem checkLoop_complete :
    ∀ (rs : List Regex) (lines : List String) (ms : List PyMatch),
      MatchSeq rs lines ms → ∀ (p i : Nat) (acc : List PyMatch),
      ∃ ms', checkLoop true rs lines p i acc = .done (acc ++ ms') ∧
        MatchSeq rs lines ms' := by
  intro rs
  induction rs with
  | nil =>
    intro lines ms _ p i acc
    exact ⟨[], by simp [checkLoop], MatchSeq.nil⟩
  | cons r rs ih =>
    intro lines ms h p i acc
    obtain ⟨m, rest, nextIdx, ms0, hscan, hrest⟩ := scan_found_of_MatchSeq h i
    obtain ⟨ms1, hloop, hms1⟩ := ih rest ms0 hrest (p + 1) nextIdx (acc ++ [m])
    refine ⟨m :: ms1, ?_, MatchSeq.of_scan_found hscan hms1⟩
    rw [checkLoop, hscan]
    show checkLoop true rs rest (p + 1) nextIdx (acc ++ [m]) = _
    rw [hloop]
    simp

/-- Soundness of the loop (either mode): a normal completion extends
the accumulator with at most one match per pattern, and with exactly
one per pattern only if the extension is an in-order matching of the
pattern list against the lines. -/
theorem checkLoop_sound (sf : Bool) :
    ∀ (rs : List Regex) (lines : List String) (p i : Nat)
      (acc res : List PyMatch),
      checkLoop sf rs lines p i acc = .done res →
      ∃ ms, res = acc ++ ms ∧ ms.length ≤ rs.length ∧
        (ms.length = rs.length → MatchSeq rs lines ms) := by
  intro rs
  induction rs with
  | nil =>
    intro lines p i acc res h
    rw [checkLoop] at h
    cases h
    exact ⟨[], by simp, by simp, fun _ => MatchSeq.nil⟩
  | cons r rs ih =>
    intro lines p i acc res h
    rw [checkLoop] at h
    cases hscan : scanFrom r sf lines i with
    | found m rest nextIdx =>
      rw [hscan] at h
      obtain ⟨ms1, hres, hlen, hms⟩ := ih rest (p + 1) nextIdx (acc ++ [m]) res h
      refine ⟨m :: ms1, by simp [hres], by simpa using Nat.succ_le_succ hlen, ?_⟩
      intro hl
      exact MatchSeq.of_scan_found hscan (hms (by simpa using hl))
    | exhausted nextIdx =>
      rw [hscan] at h
      have h' : checkLoop sf rs [] (p + 1) nextIdx acc = .done res := h
      rw [checkLoop_nil_lines] at h'
      cases h'
      exact ⟨[], by simp, by simp, fun hl => by simp at hl⟩
    | failNow j line =>
      rw [hscan] at h
      have h' : LoopRes.strictFail p j line = .done res := h
      cases h'

/-- In skip mode the inner scan's outcome does not depend on the value
of the line cursor: the same match and remaining lines are found (only
the reported cursor differs), or the lines are exhausted either way. -/
theorem scanFrom_true_pair (r : Regex) :
    ∀ (ls : List String) (i i' : Nat),
      (∃ m rest k k', scanFrom r true ls i = .found m rest k ∧
        scanFrom r true ls i' = .found m rest k') ∨
      (∃ k k', scanFrom r true ls i = .exhausted k ∧
        scanFrom r true ls i' = .exhausted k') := by
  intro ls
  induction ls with
  | nil => intro i i'; exact Or.inr ⟨i, i', rfl, rfl⟩
  | cons l ls ih =>
    intro i i'
    cases hp : pmatch r l with
    | some m =>
      exact Or.inl ⟨m, ls, i + 1, i' + 1, by rw [scanFrom, hp], by rw [scanFrom, hp]⟩
    | none =>
      have h1 : scanFrom r true (l :: ls) i = scanFrom r true ls (i + 1) := by
        rw [scanFrom, hp]; rfl
      have h2 : scanFrom r true (l :: ls) i' = scanFrom r true ls (i' + 1) := by
        rw [scanFrom, hp]; rfl
      rw [h1, h2]
      exact ih (i + 1) (i' + 1)

/-- In skip mode the loop's outcome is independent of the pattern index
and the line cursor, which only feed the strict diagnostic. -/
theorem checkLoop_true_irrel :
    ∀ (rs : List Regex) (lines : List String) (p i p' i' : Nat) (acc : List PyMatch),
      checkLoop true rs lines p i acc = checkLoop true rs lines p' i' acc := by
  intro rs
  induction rs with
  | nil => intro lines p i p' i' acc; rfl
  | cons r rs ih =>
    intro lines p i p' i' acc
    rcases scanFrom_true_pair r lines i i' with ⟨m, rest, k, k', h1, h2⟩ | ⟨k, k', h1, h2⟩
    · rw [checkLoop, h1, checkLoop, h2]
      exact ih rest (p + 1) k (p' + 1) k' (acc ++ [m])
    · rw [checkLoop, h1, checkLoop, h2]
      exact ih [] (p + 1) k (p' + 1) k' acc

/-- Inserting, at the current scan position, a line that matches none
of the still-pending patterns does not change the skip-mode loop's
outcome. -/
theorem checkLoop_true_insert (rs : List Regex) (z : String) (ls : List String)
    (p i p' i' : Nat) (acc : List PyMatch)
    (hz : ∀ r ∈ rs, pmatch r z = none) :
    checkLoop true rs (z :: ls) p i acc = checkLoop true rs ls p' i' acc := by
  cases rs with
  | nil => rfl
  | cons r rs' =>
    have hz0 : pmatch r z = none := hz r (List.mem_cons_self r rs')
    have hstep : scanFrom r true (z :: ls) i = scanFrom r true ls (i + 1) := by
      rw [scanFrom, hz0]; rfl
    rcases scanFrom_true_pair r ls (i + 1) i' with ⟨m, rest, k, k', h1, h2⟩ | ⟨k, k', h1, h2⟩
    · rw [checkLoop, hstep, h1, checkLoop, h2]
      exact checkLoop_true_irrel rs' rest (p + 1) k (p' + 1) k' (acc ++ [m])
    · rw [checkLoop, hstep, h1, checkLoop, h2]
      exact checkLoop_true_irrel rs' [] (p + 1) k (p' + 1) k' acc

/-- Soundness of greedy iteration: any result of `starMatch` splits the
input into an accepted prefix (an iterated match of the body) and the
returned suffix, provided the body matcher is itself sound. -/
theorem starMatch_sound (r : Regex)
    (hf : ∀ (s : List Char) (caps : Caps) (x : List Char × Caps),
      x ∈ rmatch r s caps → ∃ p, s = p ++ x.1 ∧ Accepts r p) :
    ∀ (fuel : Nat) (s : List Char) (caps : Caps) (x : List Char × Caps),
      x ∈ starMatch (fun s' caps' => rmatch r s' caps') fuel s caps →
      ∃ p, s = p ++ x.1 ∧ Accepts (.star r) p := by
  intro fuel
  induction fuel with
  | zero =>
    intro s caps x hx
    rw [starMatch] at hx
    simp at hx
    exact ⟨[], by simp [hx], Accepts.star_nil⟩
  | succ fuel ih =>
    intro s caps x hx
    rw [starMatch] at hx
    rcases List.mem_append.mp hx with hx | hx
    · rcases List.mem_flatMap.mp hx with ⟨y, hy, hxy⟩
      have hy' : y ∈ rmatch r s caps := (List.mem_filter.mp hy).1
      obtain ⟨p₁, hs, ha₁⟩ := hf s caps y hy'
      obtain ⟨p₂, hy1, ha₂⟩ := ih y.1 y.2 x hxy
      exact ⟨p₁ ++ p₂, by rw [hs, hy1, List.append_assoc], Accepts.star_cons ha₁ ha₂⟩
    · simp at hx
      exact ⟨[], by simp [hx], Accepts.star_nil⟩

/-- Soundness of the backtracking matcher: every result consumes an
accepted prefix of the input and returns the corresponding suffix. -/
theorem rmatch_sound :
    ∀ (r : Regex) (s : List Char) (caps : Caps) (x : List Char × Caps),
      x ∈ rmatch r s caps → ∃ p, s = p ++ x.1 ∧ Accepts r p := by
  intro r
  induction r with
  | eps =>
    intro s caps x hx
    rw [rmatch] at hx
    simp at hx
    exact ⟨[], by simp [hx], Accepts.eps⟩
  | ch a =>
    intro s caps x hx
    cases s with
    | nil => rw [rmatch] at hx; simp at hx
    | cons c s' =>
      rw [rmatch] at hx
      by_cases ht : a.test c
      · rw [if_pos ht] at hx
        simp at hx
        exact ⟨[c], by simp [hx], Accepts.ch ht⟩
      · rw [if_neg ht] at hx
        simp at hx
  | cat r₁ r₂ ih₁ ih₂ =>
    intro s caps x hx
    rw [rmatch] at hx
    rcases List.mem_flatMap.mp hx with ⟨y, hy, hxy⟩
    obtain ⟨p₁, hs, ha₁⟩ := ih₁ s caps y hy
    obtain ⟨p₂, hy1, ha₂⟩ := ih₂ y.1 y.2 x hxy
    exact ⟨p₁ ++ p₂, by rw [hs, hy1, List.append_assoc], Accepts.cat ha₁ ha₂⟩
  | star r ih =>
    intro s caps x hx
    rw [rmatch] at hx
    exact starMatch_sound r ih (s.length + 1) s caps x hx
  | group n r ih =>
    intro s caps x hx
    rw [rmatch] at hx
    rcases List.mem_map.mp hx with ⟨y, hy, hxy⟩
    obtain ⟨p, hs, ha⟩ := ih s caps y hy
    refine ⟨p, ?_, Accepts.group ha⟩
    rw [← hxy]
    exact hs

/-- The empty iteration is always among the results of `starMatch`. -/
theorem starMatch_self (f : List Char → Caps → List (List Char × Caps)) :
    ∀ (fuel : Nat) (s : List Char) (caps : Caps), (s, caps) ∈ starMatch f fuel s caps := by
  intro fuel s caps
  cases fuel with
  | zero => rw [starMatch]; simp
  | succ fuel => rw [starMatch]; simp

/-- Inversion for star acceptance: an accepted string is empty or
starts with one nonempty accepted iteration of the body followed by an
accepted remainder. -/
theorem Accepts.star_inv {r : Regex} {p : List Char} (h : Accepts (.star r) p) :
    p = [] ∨ ∃ s₁ s₂, s₁ ≠ [] ∧ p = s₁ ++ s₂ ∧ Accepts r s₁ ∧ Accepts (.star r) s₂ := by
  generalize hq : Regex.star r = q at h
  induction h with
  | eps => cases hq
  | ch _ => cases hq
  | cat _ _ _ _ => cases hq
  | group _ _ => cases hq
  | star_nil => exact Or.inl rfl
  | star_cons h₁ h₂ ih₁ ih₂ =>
    cases hq
    rename_i s₁ s₂
    by_cases hs : s₁ = ([] : List Char)
    · rw [hs]
      simpa using ih₂ rfl
    · exact Or.inr ⟨s₁, s₂, hs, rfl, h₁, h₂⟩

/-- Completeness of greedy iteration: if the star accepts `p` and the
fuel is at least `p.length`, some backtracking branch of `starMatch`
consumes exactly `p`, provided the body matcher is complete. -/
theorem starMatch_complete (r : Regex)
    (hf : ∀ (p : List Char), Accepts r p → ∀ (q : List Char) (caps : Caps),
      ∃ caps', (q, caps') ∈ rmatch r (p ++ q) caps) :
    ∀ (fuel : Nat) (p : List Char), Accepts (.star r) p → p.length ≤ fuel →
      ∀ (q : List Char) (caps : Caps),
      ∃ caps', (q, caps') ∈ starMatch (fun s' caps' => rmatch r s' caps') fuel (p ++ q) caps := by
  intro fuel
  induction fuel with
  | zero =>
    intro p hp hlen q caps
    have hnil : p = [] := List.eq_nil_of_length_eq_zero (Nat.le_zero.mp hlen)
    subst hnil
    exact ⟨caps, starMatch_self _ 0 q caps⟩
  | succ fuel ih =>
    intro p hp hlen q caps
    rcases Accepts.star_inv hp with hnil | ⟨s₁, s₂, hne, hsplit, ha₁, ha₂⟩
    · subst hnil
      exact ⟨caps, starMatch_self _ (fuel + 1) q caps⟩
    · subst hsplit
      obtain ⟨caps₁, hmem₁⟩ := hf s₁ ha₁ (s₂ ++ q) caps
      have hlen₁ : 1 ≤ s₁.length := by
        cases s₁ with
        | nil => exact absurd rfl hne
        | cons c cs => simp
      have hlen₂ : s₂.length ≤ fuel := by
        rw [List.length_append] at hlen
        omega
      obtain ⟨caps', hmem₂⟩ := ih s₂ ha₂ hlen₂ q caps₁
      refine ⟨caps', ?_⟩
      rw [starMatch]
      apply List.mem_append.mpr
      left
      apply List.mem_flatMap.mpr
      refine ⟨(s₂ ++ q, caps₁), List.mem_filter.mpr ⟨?_, ?_⟩, hmem₂⟩
      · rw [List.append_assoc]
        exact hmem₁
      · simp only [List.length_append, decide_eq_true_eq]
        omega

/-- Completeness of the backtracking matcher: whenever the pattern
accepts a prefix `p` of the input, some branch consumes exactly `p`. -/
theorem rmatch_complete :
    ∀ (r : Regex) (p : List Char), Accepts r p →
      ∀ (q : List Char) (caps : Caps), ∃ caps', (q, caps') ∈ rmatch r (p ++ q) caps := by
  intro r
  induction r with
  | eps =>
    intro p hp q caps
    cases hp
    exact ⟨caps, by rw [rmatch]; simp⟩
  | ch a =>
    intro p hp q caps
    cases hp with
    | ch ht => exact ⟨caps, by rw [List.cons_append, rmatch, if_pos ht]; simp⟩
  | cat r₁ r₂ ih₁ ih₂ =>
    intro p hp q caps
    cases hp with
    | cat h₁ h₂ =>
      rename_i s₁ s₂
      obtain ⟨caps₁, hm₁⟩ := ih₁ s₁ h₁ (s₂ ++ q) caps
      obtain ⟨caps₂, hm₂⟩ := ih₂ s₂ h₂ q caps₁
      refine ⟨caps₂, ?_⟩
      rw [rmatch]
      apply List.mem_flatMap.mpr
      refine ⟨(s₂ ++ q, caps₁), ?_, hm₂⟩
      rw [List.append_assoc]
      exact hm₁
  | star r ih =>
    intro p hp q caps
    have h := starMatch_complete r (fun p' hp' q' caps' => ih p' hp' q' caps')
      ((p ++ q).length + 1) p hp (by rw [List.length_append]; omega) q caps
    obtain ⟨caps', hmem⟩ := h
    exact ⟨caps', by rw [rmatch]; exact hmem⟩
  | group n r ih =>
    intro p hp q caps
    cases hp with
    | group h =>
      obtain ⟨caps₁, hm⟩ := ih p h q caps
      refine ⟨caps₁ ++ [(n, (((p ++ q).take ((p ++ q).length - q.length)).asString))], ?_⟩
      rw [rmatch]
      apply List.mem_map.mpr
      exact ⟨(q, caps₁), hm, rfl⟩

/-- Claim C5: a pattern matches a transcript line exactly when the
regular expression accepts some prefix of the line (`re.match`'s
starts-with anchoring); trailing content of the line not covered by
the pattern is permitted, and full-line matching is never required. -/
theorem pmatch_starts_with (r : Regex) (line : String) :
    (pmatch r line).isSome = true ↔ ∃ p q, line.data = p ++ q ∧ Accepts r p := by
  constructor
  · intro h
    cases hm : rmatch r line.data [] with
    | nil => rw [pmatch, hm] at h; simp at h
    | cons x xs =>
      have hx : x ∈ rmatch r line.data [] := by rw [hm]; exact List.mem_cons_self x xs
      obtain ⟨p, hs, ha⟩ := rmatch_sound r line.data [] x hx
      exact ⟨p, x.1, hs, ha⟩
  · rintro ⟨p, q, hd, ha⟩
    obtain ⟨caps', hm⟩ := rmatch_complete r p ha q []
    rw [pmatch, hd]
    cases hmm : rmatch r (p ++ q) [] with
    | nil => rw [hmm] at hm; cases hm
    | cons x xs => rfl

/-- Claim C1: whenever the transcript's lines contain, in relative
order, lines matching the checker's patterns `p1..pn` (with arbitrary
other lines interspersed), `check` in skip mode succeeds, returning
exactly one match per pattern, in pattern order, the matched lines
strictly increasing (no line satisfies two patterns). -/
theorem check_order_preservation (c : Checker) (text : String)
    (_hne : c.rexps ≠ []) (h₂ : ∃ ms, MatchSeq c.rexps (splitLines text) ms) :
    ∃ ms, (c.check text true).result = CheckResult.ok ms ∧
      MatchSeq c.rexps (splitLines text) ms ∧ ms.length = c.rexps.length := by
  obtain ⟨ms0, hms0⟩ := h₂
  obtain ⟨ms, hloop, hms⟩ := checkLoop_complete c.rexps (splitLines text) ms0 hms0 0 0 []
  have hloop' : checkLoop true c.rexps (splitLines text) 0 0 [] = .done ms := by
    simpa using hloop
  refine ⟨ms, ?_, hms, hms.length_eq⟩
  have hnlt : ¬ ms.length < c.rexps.length := by rw [hms.length_eq]; omega
  simp only [Checker.check, hloop', if_neg hnlt]

/-- Claim C2: in strict mode (`skip_fails=False`), if the line at the
current cursor does not match the current unmatched pattern, the run
fails immediately with the strict diagnostic — even if a later line of
the transcript would have matched that pattern; in particular, at the
start of a check whose first line does not match the first pattern,
`check` exits with status 1. -/
theorem check_strict_mode (r : Regex) (rs : List Regex) (l : String) (ls : List String)
    (patIdx lineIdx : Nat) (acc : List PyMatch) (c : Checker) (text : String)
    (hm : pmatch r l = none) (hc : c.rexps = r :: rs) (ht : splitLines text = l :: ls) :
    checkLoop false (r :: rs) (l :: ls) patIdx lineIdx acc
        = LoopRes.strictFail patIdx lineIdx l ∧
      (c.check text false).result = CheckResult.exit 1 := by
  have hstep : ∀ (p i : Nat) (a : List PyMatch),
      checkLoop false (r :: rs) (l :: ls) p i a = .strictFail p i l := by
    intro p i a
    rw [checkLoop, scanFrom, hm]
    rfl
  refine ⟨hstep patIdx lineIdx acc, ?_⟩
  simp only [Checker.check, ht, hc, hstep 0 0 []]

/-- Claim C3: if the transcript does not contain, in order, one
matching line per pattern, `check` exits with status 1 regardless of
`skip_fails`; running out of lines with patterns still unmatched is
never a success. -/
theorem check_insufficient (c : Checker) (text : String)
    (h : ¬ ∃ ms, MatchSeq c.rexps (splitLines text) ms) (sf : Bool) :
    (c.check text sf).result = CheckResult.exit 1 := by
  cases hloop : checkLoop sf c.rexps (splitLines text) 0 0 [] with
  | strictFail p j line => simp only [Checker.check, hloop]
  | done res =>
    obtain ⟨ms, hres, hle, hms⟩ := checkLoop_sound sf c.rexps (splitLines text) 0 0 [] res hloop
    have hres' : res = ms := by simpa using hres
    rw [← hres'] at hle hms
    have hlt : res.length < c.rexps.length := by
      rcases Nat.lt_or_ge res.length c.rexps.length with hlt | hge
      · exact hlt
      · exact absurd ⟨res, hms (Nat.le_antisymm hle hge)⟩ h
    simp only [Checker.check, hloop, if_pos hlt]

/-- Claim C4 (amended), the failure diagnostics of `check`: every
failure exits with status 1 after printing either the strict-mismatch
line (checker name, unmatched pattern index, stopping line index and
content) or the insufficient-matches line (checker name, number of
matched lines — which equals the index of the first unmatched pattern
— and pattern count), followed in both cases by the checker report
(name and full pattern list) and the full transcript text.  The
exhaustion diagnostic carries no stopping-line index or content. -/
theorem check_failure_diagnostics (c : Checker) (text : String) (sf : Bool)
    (h : (c.check text sf).result = CheckResult.exit 1) :
    (∃ i j line, (c.check text sf).events =
        [PrintEvent.matchFailed c.name i j line,
         PrintEvent.checkerReport c.name c.rexps, PrintEvent.textEcho text]) ∨
    (∃ k, k < c.rexps.length ∧ (c.check text sf).events =
        [PrintEvent.insufficientLines c.name k c.rexps.length,
         PrintEvent.checkerReport c.name c.rexps, PrintEvent.textEcho text]) := by
  cases hloop : checkLoop sf c.rexps (splitLines text) 0 0 [] with
  | strictFail p j line =>
    left
    exact ⟨p, j, line, by simp only [Checker.check, hloop]⟩
  | done res =>
    by_cases hlt : res.length < c.rexps.length
    · right
      exact ⟨res.length, hlt, by simp only [Checker.check, hloop, if_pos hlt]⟩
    · exfalso
      have hok : (c.check text sf).result = CheckResult.ok res := by
        simp only [Checker.check, hloop, if_neg hlt]
      rw [hok] at h
      cases h

/-- Claim C4, counterexample to the claim as stated: on an exhaustion
failure (here: one pattern, empty transcript) `check` exits with
status 1 but emits no event carrying the index and content of the line
where matching stopped — the strict-mismatch diagnostic is the only
event that does, and it is absent. -/
theorem check_failure_diag_cex :
    ((Checker.init ("diag") (.one (rstr ("A")))).check ("") true).result = CheckResult.exit 1
      ∧ hasLineDiag (((Checker.init ("diag") (.one (rstr ("A")))).check ("") true).events)
        = false := by
  decide

/-- Witness for claim C4's amended theorem at a concrete failing
input. -/
theorem check_failure_diagnostics_witness :
    ((Checker.init ("diagw") (.one (rstr ("A")))).check ("") true).result = CheckResult.exit 1
      ∧ ((∃ i j line, ((Checker.init ("diagw") (.one (rstr ("A")))).check ("") true).events
            = [PrintEvent.matchFailed ("diagw") i j line,
               PrintEvent.checkerReport ("diagw") [rstr ("A")], PrintEvent.textEcho ("")])
          ∨ (∃ k, k < 1 ∧ ((Checker.init ("diagw") (.one (rstr ("A")))).check ("") true).events
            = [PrintEvent.insufficientLines ("diagw") k 1,
               PrintEvent.checkerReport ("diagw") [rstr ("A")], PrintEvent.textEcho ("")])) :=
  ⟨by decide, check_failure_diagnostics _ _ _ (by decide)⟩

/-- Claim C6: with `skip_fails=True`, inserting at the current scan
position a line matching none of the still-pending patterns does not
change the loop's outcome, and inserting such a line at the front of
the transcript does not change `check`'s outcome or returned
matches. -/
theorem check_skip_tolerance (rs : List Regex) (z : String) (ls : List String)
    (p i p' i' : Nat) (acc : List PyMatch) (c : Checker) (text text' : String)
    (hz : ∀ r ∈ rs, pmatch r z = none)
    (hz' : ∀ r ∈ c.rexps, pmatch r z = none)
    (ht : splitLines text' = z :: splitLines text) :
    checkLoop true rs (z :: ls) p i acc = checkLoop true rs ls p' i' acc ∧
      (c.check text' true).result = (c.check text true).result := by
  refine ⟨checkLoop_true_insert rs z ls p i p' i' acc hz, ?_⟩
  have hins : checkLoop true c.rexps (z :: splitLines text) 0 0 []
      = checkLoop true c.rexps (splitLines text) 0 0 [] :=
    checkLoop_true_insert c.rexps z (splitLines text) 0 0 0 0 [] hz'
  simp only [Checker.check, ht, hins]
  cases hres : checkLoop true c.rexps (splitLines text) 0 0 [] with
  | strictFail a b l => rfl
  | done res =>
    by_cases hlt : res.length < c.rexps.length
    · simp only [if_pos hlt]
    · simp only [if_neg hlt]

/-- Claim C7: the version-banner transcript checked with the
show-version pattern (testhello.py lines 136-148) succeeds in strict
mode with a single match whose captured groups are the strings 10 and
2, from which the major version 10 and minor version 2 are parsed. -/
theorem show_version_scenario :
    ((Checker.init ("show version") (.one show_version_rexp)).check
        ("GNU gdb (GDB) 10.2\n") false).result
      = CheckResult.ok [⟨("GNU gdb (GDB) 10.2"), [(1, ("10")), (2, ("2"))]⟩]
    ∧ (PyMatch.mk ("GNU gdb (GDB) 10.2") [(1, ("10")), (2, ("2"))]).group 1 = some ("10")
    ∧ (PyMatch.mk ("GNU gdb (GDB) 10.2") [(1, ("10")), (2, ("2"))]).group 2 = some ("2")
    ∧ ((PyMatch.mk ("GNU gdb (GDB) 10.2") [(1, ("10")), (2, ("2"))]).group 1).bind pyInt
      = some 10
    ∧ ((PyMatch.mk ("GNU gdb (GDB) 10.2") [(1, ("10")), (2, ("2"))]).group 2).bind pyInt
      = some 2 := by
  decide

/-- Claim C8: constructing a checker from a scalar pattern behaves
identically, for every transcript and mode, to constructing it from
the one-element list holding that pattern: the whole observable output
(print events, exit or returned matches) coincides. -/
theorem init_single_pattern (nm : String) (r : Regex) (text : String) (sf : Bool) :
    (Checker.init nm (.one r)).check text sf
      = (Checker.init nm (.many [r])).check text sf := rfl

/-- Claim C9: a checker with an empty pattern list succeeds on every
transcript in both modes as a no-op: it never exits, prints exactly
the transcript text, and returns an empty match list. -/
theorem check_empty_rexps (nm text : String) (sf : Bool) :
    (Checker.init nm (.many [])).check text sf
      = ⟨[PrintEvent.textEcho text], CheckResult.ok []⟩ := rfl

/-- Claim C10: the `skip_fails` parameter of `check` defaults to
`True`: calling `check` with no second argument is the same call as
`check` with `skip_fails=True`. -/
theorem check_default_skip_fails (c : Checker) (text : String) :
    c.check text = c.check text true := rfl

/-- Witness for claim C1 at a concrete transcript with interleaved
noise lines. -/
theorem check_order_preservation_witness :
    ∃ ms, ((Checker.init ("order") (.many [rstr ("A"), rstr ("B")])).check
          ("X\nA\nY\nB") true).result = CheckResult.ok ms
      ∧ MatchSeq (Checker.init ("order") (.many [rstr ("A"), rstr ("B")])).rexps
          (splitLines ("X\nA\nY\nB")) ms
      ∧ ms.length
        = (Checker.init ("order") (.many [rstr ("A"), rstr ("B")])).rexps.length :=
  check_order_preservation _ _ (by decide)
    ⟨[⟨("A"), []⟩, ⟨("B"), []⟩],
      MatchSeq.skip_line (MatchSeq.match_line (by decide)
        (MatchSeq.skip_line (MatchSeq.match_line (by decide) MatchSeq.nil)))⟩

/-- Witness for claim C2: the first line does not match, the second
would have. -/
theorem check_strict_mode_witness :
    checkLoop false [rstr ("A")] [("X"), ("A")] 0 0 [] = LoopRes.strictFail 0 0 ("X")
      ∧ ((Checker.init ("strict") (.one (rstr ("A")))).check ("X\nA") false).result
        = CheckResult.exit 1 :=
  check_strict_mode (rstr ("A")) [] ("X") [("A")] 0 0 []
    (Checker.init ("strict") (.one (rstr ("A")))) ("X\nA")
    (by decide) rfl (by decide)

/-- Witness for claim C3: two patterns, a transcript matching only the
first, in both modes. -/
theorem check_insufficient_witness :
    ((Checker.init ("exh") (.many [rstr ("A"), rstr ("B")])).check ("A") true).result
        = CheckResult.exit 1
      ∧ ((Checker.init ("exh") (.many [rstr ("A"), rstr ("B")])).check ("A") false).result
        = CheckResult.exit 1 :=
  ⟨check_insufficient _ _
      (by
        rintro ⟨ms, hms⟩
        have hms' : MatchSeq [rstr ("A"), rstr ("B")] [("A")] ms := hms
        cases hms' with
        | match_line hm hrest => cases hrest
        | skip_line hrest => cases hrest)
      true,
    check_insufficient _ _
      (by
        rintro ⟨ms, hms⟩
        have hms' : MatchSeq [rstr ("A"), rstr ("B")] [("A")] ms := hms
        cases hms' with
        | match_line hm hrest => cases hrest
        | skip_line hrest => cases hrest)
      false⟩

/-- Witness for claim C6: inserting the non-matching line X in front of
a transcript that matches the single pattern. -/
theorem check_skip_tolerance_witness :
    checkLoop true [rstr ("A")] [("X"), ("A")] 0 0 []
        = checkLoop true [rstr ("A")] [("A")] 0 5 []
      ∧ ((Checker.init ("skip") (.one (rstr ("A")))).check ("X\nA") true).result
        = ((Checker.init ("skip") (.one (rstr ("A")))).check ("A") true).result :=
  check_skip_tolerance [rstr ("A")] ("X") [("A")] 0 0 0 5 []
    (Checker.init ("skip") (.one (rstr ("A")))) ("A") ("X\nA")
    (by decide) (by decide) (by decide)
